import Mathlib

/-!
Verification of the Twitter daily poster (src/main.py).

The Python program is embedded shallowly:
- the persisted JSON state becomes the structure `RotationState` (fields
  `index`, `order`, `last_posted_at`, as in the state file);
- `random.shuffle` is modelled by an explicit parameter
  `shuffle : List Int → List Int`; theorems that need it assume that the
  parameter permutes its input, which is the only property the program
  relies on;
- Python strings are modelled as `List Char` where character-level
  behaviour matters (trimming, composition, HH:MM parsing);
- Python exceptions are modelled by `Option`: `none` is a raised,
  uncaught exception at that point of the flow;
- the pytz timezone database is modelled by a parameter
  `tzValid : List Char → Bool` telling which names `pytz.timezone`
  accepts, and the current local time by `nowSec`, the number of seconds
  since local midnight (the comparisons in the source compare datetimes
  sharing the same date, so only the time of day matters).
-/

/-- The persisted rotation state, mirroring the JSON object produced by
`save_state` in src/main.py: cursor `index`, shuffled `order`, and the
informational `last_posted_at` timestamp. Values coming from JSON are
arbitrary integers, hence `Int`. -/
structure RotationState where
  index : Int
  order : List Int
  last_posted_at : Option String
deriving DecidableEq, Repr

/-- The default zero-value state returned by `load_state` when the state
file is absent or unparseable (src/main.py line 35). -/
def defaultState : RotationState :=
  { index := 0, order := [], last_posted_at := none }

/-- Embedding of `load_state` (src/main.py lines 29-35). `fileContents`
is the contents of the state file when it exists; `jsonParse` models
`json.loads` restricted to the state schema, returning `none` when the
raw contents fail to parse (the Python code swallows the exception and
falls through to the default). -/
def load_state (fileContents : Option String)
    (jsonParse : String → Option RotationState) : RotationState :=
  match fileContents with
  | some s =>
    match jsonParse s with
    | some st => st
    | none => defaultState
  | none => defaultState

/-- The list `[0, 1, ..., n-1]` as integers: `list(range(n))` in the
source. -/
def intRange (n : Nat) : List Int :=
  (List.range n).map (fun (i : Nat) => (i : Int))

/-- Embedding of `ensure_order` (src/main.py lines 48-56): regenerate the
order when it is empty or contains some value `i` with `i >= n`,
resetting the cursor to 0; otherwise leave the state untouched. The
regenerated order is `shuffle` applied to `list(range(n))`. -/
def ensure_order (shuffle : List Int → List Int) (st : RotationState)
    (n : Nat) : RotationState :=
  if st.order = [] ∨ st.order.any (fun i => (n : Int) ≤ i) = true then
    { st with order := shuffle (intRange n), index := 0 }
  else
    st

/-- Python list indexing `l[i]` for `int` subscripts: non-negative
indices are looked up directly, negative indices count from the end, and
an out-of-range subscript raises `IndexError` (modelled as `none`). -/
def pyGet (l : List Int) (i : Int) : Option Int :=
  if 0 ≤ i then l.get? i.toNat
  else if 0 ≤ (l.length : Int) + i then l.get? ((l.length : Int) + i).toNat
  else none

/-- The order in effect after the reshuffle-on-exhaustion branch of
`main` (src/main.py lines 137-141): when the cursor has run past the end
of the (ensured) order, the order is reshuffled in place. -/
def selOrder (shuffle : List Int → List Int) (st : RotationState)
    (n : Nat) : List Int :=
  if ((ensure_order shuffle st n).order.length : Int) ≤
      (ensure_order shuffle st n).index then
    shuffle (ensure_order shuffle st n).order
  else
    (ensure_order shuffle st n).order

/-- The cursor in effect after the reshuffle-on-exhaustion branch of
`main` (src/main.py lines 135-141): reset to 0 exactly when the order was
reshuffled. -/
def selCursor (shuffle : List Int → List Int) (st : RotationState)
    (n : Nat) : Int :=
  if ((ensure_order shuffle st n).order.length : Int) ≤
      (ensure_order shuffle st n).index then
    0
  else
    (ensure_order shuffle st n).index

/-- One pass of the rotation engine as run by `main` (src/main.py lines
133-143 and 154): ensure the order, reshuffle when exhausted, select
`order[idx]` as the idea index, and advance the cursor to `idx + 1` (the
value `main` persists after a successful post). `none` models an
uncaught `IndexError`. -/
def selectStep (shuffle : List Int → List Int) (st : RotationState)
    (n : Nat) : Option (Int × RotationState) :=
  match pyGet (selOrder shuffle st n) (selCursor shuffle st n) with
  | none => none
  | some ideaIdx =>
    some (ideaIdx,
      { index := selCursor shuffle st n + 1,
        order := selOrder shuffle st n,
        last_posted_at := (ensure_order shuffle st n).last_posted_at })

/-- `k` consecutive runs of the rotation engine, collecting the selected
idea indices in order; each run persists its advanced cursor for the
next one. -/
def runSelections (shuffle : List Int → List Int) (n : Nat) :
    Nat → RotationState → Option (List Int)
  | 0, _ => some []
  | k + 1, st =>
    match selectStep shuffle st n with
    | none => none
    | some (i, st') => (runSelections shuffle n k st').map (fun l => i :: l)

/-- One whole run of `main` past the gate (src/main.py lines 131-156),
abstracted over the publish outcome: the first component is the idea
index that was successfully posted (or `none` when the run raised), the
second is the state left in the state file. On publish failure the
exception from `post_tweet` propagates before `save_state`, so the file
keeps the pre-run state. -/
def mainRun (shuffle : List Int → List Int) (publishOk : Bool)
    (ts : String) (n : Nat) (st : RotationState) :
    Option Int × RotationState :=
  match selectStep shuffle st n with
  | none => (none, st)
  | some (idea, st') =>
    if publishOk then (some idea, { st' with last_posted_at := some ts })
    else (none, st)

/-- Index of the last occurrence of `c` in `l`, as Python `str.rfind`
computes it for a present character. -/
def rfindIdx : List Char → Char → Option Nat
  | [], _ => none
  | x :: xs, c =>
    match rfindIdx xs c with
    | some i => some (i + 1)
    | none => if x = c then some 0 else none

/-- Embedding of `trim_to_limit` (src/main.py lines 81-88): texts within
the limit are returned unchanged; otherwise the first `limit` characters
are taken, cut back to the last space when the prefix contains one, then
truncated to `limit - 1` characters with an ellipsis appended. For
`limit = 0` the prefix is empty, so the truncated Nat subtraction agrees
with the Python negative-slice behaviour there. -/
def trim_to_limit (text : List Char) (limit : Nat) : List Char :=
  if text.length ≤ limit then text
  else
    let cutoff := text.take limit
    let cutoff2 :=
      if ' ' ∈ cutoff then cutoff.take ((rfindIdx cutoff ' ').getD 0)
      else cutoff
    cutoff2.take (limit - 1) ++ ['…']

/-- Digit-string to number, modelling Python `int(s)` on a plain run of
decimal digits (the empty string and non-digit characters raise
`ValueError`, modelled as `none`). -/
def digitsToNat (cs : List Char) : Option Nat :=
  if cs ≠ [] ∧ cs.all Char.isDigit = true then
    some (cs.foldl (fun a c => a * 10 + (c.toNat - 48)) 0)
  else none

/-- Python `int(s)` for a decimal literal with an optional single sign
character. -/
def parsePyInt (cs : List Char) : Option Int :=
  match cs with
  | '-' :: rest => (digitsToNat rest).map (fun n => -(n : Int))
  | '+' :: rest => (digitsToNat rest).map (fun n => (n : Int))
  | _ => (digitsToNat cs).map (fun n => (n : Int))

/-- Python `s.split(":")`: split a character list on the colon
separator, keeping empty fields (so the empty string yields one empty
field). -/
def splitColon : List Char → List (List Char)
  | [] => [[]]
  | c :: rest =>
    match splitColon rest with
    | [] => [[]]
    | g :: gs => if c = ':' then [] :: g :: gs else (c :: g) :: gs

/-- Embedding of the statement `sh, sm = map(int, s.split(":"))`
(src/main.py lines 69-70): the split must yield exactly two fields and
both must parse as integers; anything else raises, modelled as
`none`. -/
def parseHM (s : List Char) : Option (Int × Int) :=
  match splitColon s with
  | [a, b] =>
    match parsePyInt a, parsePyInt b with
    | some h, some m => some (h, m)
    | _, _ => none
  | _ => none

/-- Embedding of `now.replace(hour=h, minute=m, second=0, microsecond=0)`
(src/main.py lines 71-72) reduced to a time of day in seconds:
`datetime.replace` raises `ValueError` unless `0 <= h <= 23` and
`0 <= m <= 59`. -/
def mkTimeOfDay (h m : Int) : Option Nat :=
  if 0 ≤ h ∧ h ≤ 23 ∧ 0 ≤ m ∧ m ≤ 59 then
    some (h.toNat * 3600 + m.toNat * 60)
  else none

/-- Embedding of `within_run_window` (src/main.py lines 58-79).
`tzValid` models which names `pytz.timezone` accepts; `nowSec` is the
current local time as seconds since midnight. Empty arguments disable
gating; every exception inside the `try` block (unknown timezone,
unparseable bound, out-of-range hour or minute) yields `true`. -/
def within_run_window (tzValid : List Char → Bool) (nowSec : Nat)
    (tzname start_hm end_hm : List Char) : Bool :=
  if tzname = [] ∨ start_hm = [] ∨ end_hm = [] then true
  else if tzValid tzname = true then
    match parseHM start_hm, parseHM end_hm with
    | some (sh, sm), some (eh, em) =>
      match mkTimeOfDay sh sm, mkTimeOfDay eh em with
      | some s, some e =>
        if e ≤ s then decide (s ≤ nowSec ∨ nowSec < e)
        else decide (s ≤ nowSec ∧ nowSec < e)
      | _, _ => true
    | _, _ => true
  else true

/-- Substring test, modelling Python `pat in s`. -/
def isSubstr (pat : List Char) : List Char → Bool
  | [] => List.isPrefixOf pat []
  | c :: rest => List.isPrefixOf pat (c :: rest) || isSubstr pat rest

/-- Worker for `pyReplace`: scan left to right; `skip` counts characters
still to consume silently from a match already emitted. -/
def replaceGo (pat rep : List Char) : Nat → List Char → List Char
  | _, [] => []
  | k + 1, _ :: rest => replaceGo pat rep k rest
  | 0, c :: rest =>
    if List.isPrefixOf pat (c :: rest) then
      rep ++ replaceGo pat rep (pat.length - 1) rest
    else c :: replaceGo pat rep 0 rest

/-- Python `s.replace(pat, rep)` for a non-empty pattern: leftmost,
non-overlapping replacement of every occurrence (the only call site in
the source uses the constant pattern, which is non-empty). -/
def pyReplace (pat rep l : List Char) : List Char :=
  replaceGo pat rep 0 l

/-- The topic substitution done by `main` (src/main.py lines 145-146):
when the topic is non-empty and the raw idea contains the literal
placeholder token, every occurrence of the token is replaced by the
topic. -/
def applyTopic (raw topic : List Char) : List Char :=
  if topic ≠ [] ∧ isSubstr ("{topic}".toList) raw = true then
    pyReplace ("{topic}".toList) topic raw
  else raw

/-- Python `s.strip()`: drop whitespace from both ends. -/
def pyStrip (l : List Char) : List Char :=
  ((l.dropWhile Char.isWhitespace).reverse.dropWhile Char.isWhitespace).reverse

/-- The ADD_DATE flag parse in `build_tweet` (src/main.py line 92):
lower-case the environment value and test membership in the truthy
set. -/
def parse_add_date (s : List Char) : Bool :=
  decide (s.map Char.toLower = "1".toList ∨ s.map Char.toLower = "true".toList ∨
    s.map Char.toLower = "yes".toList ∨ s.map Char.toLower = "y".toList)

/-- Embedding of `build_tweet` (src/main.py lines 90-102). `today` is
the `YYYY-MM-DD` rendering of the current local date, abstracted as a
parameter; `addDateEnv` and `hashtagEnv` are the raw environment values
(the hashtag is stripped before its emptiness test, as in the
source). -/
def build_tweet (raw addDateEnv hashtagEnv today : List Char) : List Char :=
  let add_date := parse_add_date addDateEnv
  let add_hashtag := pyStrip hashtagEnv
  let parts := [raw] ++
    (if add_date then [['\n', '\n'] ++ today] else []) ++
    (if add_hashtag ≠ [] then [' ' :: '#' :: add_hashtag] else [])
  trim_to_limit (pyStrip parts.flatten) 280

/-- The whole composition pipeline of one run: topic substitution from
`main` (src/main.py lines 145-146) followed by `build_tweet`
(line 148). -/
def composePost (ideaText topic addDateEnv hashtagEnv today : List Char) :
    List Char :=
  build_tweet (applyTopic ideaText topic) addDateEnv hashtagEnv today

/-! Helper lemmas shared by the claim theorems. -/

theorem parseHM_nil : parseHM [] = none := rfl

theorem intRange_length (n : Nat) : (intRange n).length = n := by
  rw [intRange, List.length_map, List.length_range]

theorem mem_intRange {n : Nat} {x : Int} (h : x ∈ intRange n) :
    0 ≤ x ∧ x < (n : Int) := by
  simp only [intRange, List.mem_map, List.mem_range] at h
  obtain ⟨i, hi, rfl⟩ := h
  exact ⟨Int.natCast_nonneg i, by exact_mod_cast hi⟩

/-! Theorems for the claims. -/

/-- Claim C8: whenever the text's length is at most the limit,
trim_to_limit returns the text unchanged. -/
theorem trim_noop_within_limit (text : List Char) (limit : Nat)
    (h : text.length ≤ limit) : trim_to_limit text limit = text := by
  simp [trim_to_limit, h]

theorem trim_noop_within_limit_witness :
    trim_to_limit ("hi".toList) 280 = "hi".toList :=
  trim_noop_within_limit ("hi".toList) 280 (by decide)

/-- Claim C4 counterexample: at text "a" and limit 0 the length of the
input exceeds the limit, yet the result "…" has length 1 > 0, so the
claimed bound fails as stated for arbitrary limits. -/
theorem trim_limit_zero_counterexample :
    0 < ("a".toList).length ∧ ¬ (trim_to_limit ("a".toList) 0).length ≤ 0 := by
  decide

/-- Claim C4 (amended to limits of at least 1): when the text is longer
than the limit, the trimmed result has length at most the limit and ends
with the ellipsis character; the specific example "a b c d e" at limit 5
cuts at the last space of the 5-character prefix and yields "a b…". -/
theorem trim_truncation_bounded (text : List Char) (limit : Nat)
    (hl : 1 ≤ limit) (ht : limit < text.length) :
    (trim_to_limit text limit).length ≤ limit ∧
    (trim_to_limit text limit).getLast? = some '…' ∧
    trim_to_limit ("a b c d e".toList) 5 = "a b…".toList := by
  refine ⟨?_, ?_, by decide⟩
  · rw [trim_to_limit, if_neg (by omega)]
    simp only [List.length_append, List.length_take, List.length_cons,
      List.length_nil]
    omega
  · rw [trim_to_limit, if_neg (by omega)]
    simp

theorem trim_truncation_bounded_witness :
    (trim_to_limit ("abcdef".toList) 3).length ≤ 3 ∧
    (trim_to_limit ("abcdef".toList) 3).getLast? = some '…' ∧
    trim_to_limit ("a b c d e".toList) 5 = "a b…".toList :=
  trim_truncation_bounded ("abcdef".toList) 3 (by decide) (by decide)

/-- Claim C2 counterexample: the state whose order is [-1] violates the
claimed invariant (it contains a negative value) for item count 1, yet
ensure_order leaves both the order and the cursor untouched — in
particular the order is not replaced by a permutation of range 1 and the
cursor is not reset. -/
theorem ensure_order_negative_counterexample :
    ensure_order id { index := 3, order := [-1], last_posted_at := none } 1 =
      { index := 3, order := [-1], last_posted_at := none } ∧
    ¬ ((ensure_order id { index := 3, order := [-1], last_posted_at := none } 1).index = 0 ∧
      List.Perm
        (ensure_order id { index := 3, order := [-1], last_posted_at := none } 1).order
        (intRange 1)) := by
  decide

/-- Claim C2 (amended: only an empty order or a value at least n triggers
regeneration; negative entries alone do not): when the stored order is
empty or contains an entry at least n, ensure_order installs a
permutation of range n and resets the cursor to 0; otherwise it leaves
the whole state unchanged. -/
theorem ensure_order_regeneration (shuffle : List Int → List Int)
    (st : RotationState) (n : Nat) (hs : ∀ l, List.Perm (shuffle l) l) :
    ((st.order = [] ∨ st.order.any (fun i => (n : Int) ≤ i) = true) →
      List.Perm (ensure_order shuffle st n).order (intRange n) ∧
      (ensure_order shuffle st n).index = 0) ∧
    (st.order ≠ [] → st.order.any (fun i => (n : Int) ≤ i) = false →
      ensure_order shuffle st n = st) := by
  constructor
  · intro h
    rw [ensure_order, if_pos h]
    exact ⟨hs _, rfl⟩
  · intro h1 h2
    rw [ensure_order, if_neg]
    simp [h1, h2]

theorem ensure_order_regeneration_witness :
    List.Perm (ensure_order id defaultState 2).order (intRange 2) ∧
    (ensure_order id defaultState 2).index = 0 :=
  (ensure_order_regeneration id defaultState 2 (fun l => List.Perm.refl l)).1
    (Or.inl rfl)

/-- Claim C9: loading the persisted state yields the default zero-value
state (cursor 0, empty order, no timestamp) when the file is absent and
when its contents fail to parse; the embedding is total, so the parse
failure never surfaces as an error. -/
theorem load_state_default_on_failure
    (jsonParse : String → Option RotationState) (s : String)
    (hp : jsonParse s = none) :
    load_state none jsonParse = defaultState ∧
    load_state (some s) jsonParse = defaultState ∧
    defaultState.index = 0 ∧ defaultState.order = [] ∧
    defaultState.last_posted_at = none := by
  refine ⟨rfl, ?_, rfl, rfl, rfl⟩
  simp [load_state, hp]

theorem load_state_default_on_failure_witness :
    load_state none (fun _ => none) = defaultState ∧
    load_state (some "bad") (fun _ => none) = defaultState ∧
    defaultState.index = 0 ∧ defaultState.order = [] ∧
    defaultState.last_posted_at = none :=
  load_state_default_on_failure (fun _ => none) "bad" rfl

/-- Claim C10: an empty timezone name short-circuits the gate to true,
whatever the bounds and the current time are. -/
theorem window_empty_timezone_open (tzValid : List Char → Bool)
    (nowSec : Nat) (start_hm end_hm : List Char) :
    within_run_window tzValid nowSec [] start_hm end_hm = true := by
  simp [within_run_window]

/-- Claim C6: the gate fails open — an unknown timezone name, a bound
that does not parse as HH:MM, an empty bound, or a bound that parses but
is out of range for now.replace (hour or minute outside 0-23 / 0-59,
such as 25:00 or -1:30) all make within_run_window return true instead
of raising (the embedding is total, so no exception escapes). -/
theorem window_fails_open (tzValid : List Char → Bool) (nowSec : Nat)
    (tzname start_hm end_hm : List Char)
    (h : tzValid tzname = false ∨ parseHM start_hm = none ∨
      parseHM end_hm = none ∨ start_hm = [] ∨ end_hm = [] ∨
      (∃ p, parseHM start_hm = some p ∧ mkTimeOfDay p.1 p.2 = none) ∨
      (∃ p, parseHM end_hm = some p ∧ mkTimeOfDay p.1 p.2 = none)) :
    within_run_window tzValid nowSec tzname start_hm end_hm = true := by
  by_cases h1 : tzname = [] ∨ start_hm = [] ∨ end_hm = []
  · rw [within_run_window, if_pos h1]
  · rw [within_run_window, if_neg h1]
    rcases h with h | h | h | h | h | h | h
    · rw [if_neg (by simp [h])]
    · by_cases hv : tzValid tzname = true
      · rw [if_pos hv]
        simp [h]
      · rw [if_neg hv]
    · by_cases hv : tzValid tzname = true
      · rw [if_pos hv]
        cases hps : parseHM start_hm with
        | none => simp [hps]
        | some p => cases p with
          | mk sh sm => simp [hps, h]
      · rw [if_neg hv]
    · exact absurd (Or.inr (Or.inl h)) h1
    · exact absurd (Or.inr (Or.inr h)) h1
    · by_cases hv : tzValid tzname = true
      · rw [if_pos hv]
        obtain ⟨⟨sh, sm⟩, hps, hmk⟩ := h
        cases hpe : parseHM end_hm with
        | none => simp [hps, hpe]
        | some q => cases q with
          | mk eh em => simp [hps, hpe, hmk]
      · rw [if_neg hv]
    · by_cases hv : tzValid tzname = true
      · rw [if_pos hv]
        obtain ⟨⟨eh, em⟩, hpe, hmk⟩ := h
        cases hps : parseHM start_hm with
        | none => simp [hps]
        | some q => cases q with
          | mk sh sm =>
            cases hms : mkTimeOfDay sh sm with
            | none => simp [hps, hpe, hms]
            | some s => simp [hps, hpe, hms, hmk]
      · rw [if_neg hv]

theorem window_fails_open_witness :
    within_run_window (fun _ => true) 0 ("Europe/Riga".toList)
      ("25:00".toList) ("12:00".toList) = true :=
  window_fails_open (fun _ => true) 0 ("Europe/Riga".toList)
    ("25:00".toList) ("12:00".toList)
    (Or.inr (Or.inr (Or.inr (Or.inr (Or.inr (Or.inl
      ⟨(25, 0), by decide, by decide⟩))))))

/-- Claim C5: with a recognised timezone and two bounds that parse as
in-range HH:MM values, the gate is open on the half-open interval
from start to end when start is earlier than end, and with wraparound
semantics (at or after start, or strictly before end) when end is at or
before start; in particular 10:30 is inside 09:00-12:00, 08:00 is
outside it, 23:30 is inside the wrapping 22:00-02:00 window and 03:00 is
outside it. -/
theorem window_interval_semantics (tzValid : List Char → Bool)
    (nowSec : Nat) (tzname start_hm end_hm : List Char) (sh sm eh em : Int)
    (htz : tzname ≠ []) (hv : tzValid tzname = true)
    (hps : parseHM start_hm = some (sh, sm))
    (hpe : parseHM end_hm = some (eh, em))
    (hsh : 0 ≤ sh ∧ sh ≤ 23) (hsm : 0 ≤ sm ∧ sm ≤ 59)
    (heh : 0 ≤ eh ∧ eh ≤ 23) (hem : 0 ≤ em ∧ em ≤ 59) :
    within_run_window tzValid nowSec tzname start_hm end_hm =
      (if eh.toNat * 3600 + em.toNat * 60 ≤ sh.toNat * 3600 + sm.toNat * 60
       then decide (sh.toNat * 3600 + sm.toNat * 60 ≤ nowSec ∨
         nowSec < eh.toNat * 3600 + em.toNat * 60)
       else decide (sh.toNat * 3600 + sm.toNat * 60 ≤ nowSec ∧
         nowSec < eh.toNat * 3600 + em.toNat * 60)) ∧
    within_run_window (fun _ => true) 37800 ("Europe/Riga".toList)
      ("09:00".toList) ("12:00".toList) = true ∧
    within_run_window (fun _ => true) 28800 ("Europe/Riga".toList)
      ("09:00".toList) ("12:00".toList) = false ∧
    within_run_window (fun _ => true) 84600 ("Europe/Riga".toList)
      ("22:00".toList) ("02:00".toList) = true ∧
    within_run_window (fun _ => true) 10800 ("Europe/Riga".toList)
      ("22:00".toList) ("02:00".toList) = false := by
  refine ⟨?_, by decide, by decide, by decide, by decide⟩
  have hs' : start_hm ≠ [] := by
    intro h0
    rw [h0, parseHM_nil] at hps
    exact Option.noConfusion hps
  have he' : end_hm ≠ [] := by
    intro h0
    rw [h0, parseHM_nil] at hpe
    exact Option.noConfusion hpe
  rw [within_run_window, if_neg (by simp [htz, hs', he']), if_pos hv]
  simp only [hps, hpe]
  rw [mkTimeOfDay, if_pos ⟨hsh.1, hsh.2, hsm.1, hsm.2⟩,
    mkTimeOfDay, if_pos ⟨heh.1, heh.2, hem.1, hem.2⟩]

theorem window_interval_semantics_witness :
    within_run_window (fun _ => true) 37800 ("Europe/Riga".toList)
      ("09:00".toList) ("12:00".toList) = true := by
  have h := window_interval_semantics (fun _ => true) 37800
    ("Europe/Riga".toList) ("09:00".toList) ("12:00".toList) 9 0 12 0
    (by decide) rfl (by decide) (by decide) (by decide) (by decide)
    (by decide) (by decide)
  rw [h.1]
  decide

/-- Claim C7: the composed post is the concatenation, in order, of the
topic-substituted idea text, the optional two-newline date suffix and
the optional space-hash-hashtag suffix, stripped of surrounding
whitespace and length-limited to 280; composing "Idea \x7btopic\x7d"
with topic "X" and neither date nor hashtag yields "Idea X". -/
theorem compose_concatenation (raw topic addDateEnv hashtagEnv today : List Char) :
    composePost raw topic addDateEnv hashtagEnv today =
      trim_to_limit (pyStrip (applyTopic raw topic ++
        (if parse_add_date addDateEnv then ['\n', '\n'] ++ today else []) ++
        (if pyStrip hashtagEnv ≠ [] then ' ' :: '#' :: pyStrip hashtagEnv
         else []))) 280 ∧
    composePost ("Idea {topic}".toList) ("X".toList) ("false".toList) []
      today = "Idea X".toList := by
  constructor
  · rw [composePost, build_tweet]
    by_cases h1 : parse_add_date addDateEnv = true <;>
      by_cases h2 : pyStrip hashtagEnv = [] <;>
        simp [h1, h2]
  · rw [composePost, build_tweet]
    have h1 : parse_add_date ("false".toList) = false := by decide
    have h2 : pyStrip ([] : List Char) = [] := rfl
    simp only [h1, h2, Bool.false_eq_true, if_false, ne_eq,
      not_true_eq_false, List.append_nil]
    decide

/-- Claim C3: a failed publish leaves the state file exactly as it was
before the run, so the index is unchanged and a rerun makes the very
same selection; moreover, when the persisted state is valid (non-empty
in-range order, cursor within it) the reselection does not even depend
on the shuffle; and after a successful publish the persisted index is
the selection cursor plus one, with the selected idea sitting at that
cursor in the persisted order. -/
theorem publish_failure_preserves_state
    (shuffle shuffle2 : List Int → List Int) (ts : String) (n : Nat)
    (st : RotationState) :
    (mainRun shuffle false ts n st).2 = st ∧
    Option.map Prod.fst
        (selectStep shuffle ((mainRun shuffle false ts n st).2) n) =
      Option.map Prod.fst (selectStep shuffle st n) ∧
    (st.order ≠ [] → st.order.any (fun i => (n : Int) ≤ i) = false →
      0 ≤ st.index → st.index < (st.order.length : Int) →
      Option.map Prod.fst (selectStep shuffle2 st n) =
        Option.map Prod.fst (selectStep shuffle st n)) ∧
    (∀ idea st', selectStep shuffle st n = some (idea, st') →
      (mainRun shuffle true ts n st).2 =
        { index := st'.index, order := st'.order,
          last_posted_at := some ts } ∧
      ∃ c : Int, st'.index = c + 1 ∧ pyGet st'.order c = some idea) := by
  have h1 : (mainRun shuffle false ts n st).2 = st := by
    cases h : selectStep shuffle st n with
    | none => simp [mainRun, h]
    | some p => simp [mainRun, h]
  refine ⟨h1, by rw [h1], ?_, ?_⟩
  · intro hne hany hge hlt
    have he : ∀ sh : List Int → List Int, ensure_order sh st n = st := by
      intro sh
      rw [ensure_order, if_neg]
      simp [hne, hany]
    have hnl : ¬ ((st.order.length : Int) ≤ st.index) := by omega
    have hso : ∀ sh : List Int → List Int, selOrder sh st n = st.order := by
      intro sh
      rw [selOrder, he, if_neg hnl]
    have hsc : ∀ sh : List Int → List Int, selCursor sh st n = st.index := by
      intro sh
      rw [selCursor, he, if_neg hnl]
    simp only [selectStep, hso, hsc, he]
  · intro idea st' h
    rw [selectStep] at h
    cases hg : pyGet (selOrder shuffle st n) (selCursor shuffle st n) with
    | none => rw [hg] at h; exact Option.noConfusion h
    | some x =>
      rw [hg] at h
      simp only [Option.some.injEq, Prod.mk.injEq] at h
      obtain ⟨hx, hst⟩ := h
      constructor
      · show (mainRun shuffle true ts n st).2 = _
        rw [mainRun, selectStep, hg]
        rw [← hst]
        simp
      · have ho : st'.order = selOrder shuffle st n := by rw [← hst]
        have hidx : st'.index = selCursor shuffle st n + 1 := by rw [← hst]
        refine ⟨selCursor shuffle st n, hidx, ?_⟩
        rw [ho, hg]
        exact congrArg some hx

theorem publish_failure_preserves_state_witness :
    (mainRun id false "t" 1
        { index := 0, order := [0], last_posted_at := none }).2 =
      { index := 0, order := [0], last_posted_at := none } ∧
    Option.map Prod.fst (selectStep (fun l => l.reverse)
        { index := 0, order := [0], last_posted_at := none } 1) =
      Option.map Prod.fst (selectStep id
        { index := 0, order := [0], last_posted_at := none } 1) ∧
    ∃ c : Int,
      ({ index := 1, order := [0], last_posted_at := none } :
        RotationState).index = c + 1 ∧ pyGet [0] c = some 0 := by
  have h := publish_failure_preserves_state id (fun l => l.reverse) "t" 1
    { index := 0, order := [0], last_posted_at := none }
  refine ⟨h.1, h.2.2.1 (by decide) (by decide) (by decide) (by decide), ?_⟩
  obtain ⟨-, hc⟩ := h.2.2.2 0
    { index := 1, order := [0], last_posted_at := none } (by decide)
  exact hc

/-- From a state whose order is a permutation of range n and whose
cursor is the natural number i with room for k more selections, the next
k runs of the engine read off the slice of the order starting at i. -/
theorem selections_from_valid_state (shuffle : List Int → List Int)
    (n : Nat) (os : List Int) (hperm : List.Perm os (intRange n)) :
    ∀ (k i : Nat) (lp : Option String), i + k ≤ n →
      runSelections shuffle n k
          { index := (i : Int), order := os, last_posted_at := lp } =
        some ((os.drop i).take k) := by
  have hlen : os.length = n := by rw [hperm.length_eq, intRange_length]
  have hbound : ∀ x ∈ os, x < (n : Int) := fun x hx =>
    (mem_intRange (hperm.subset hx)).2
  intro k
  induction k with
  | zero => intro i lp _; simp [runSelections]
  | succ k ih =>
    intro i lp h
    have hi : i < n := by omega
    have hne : os ≠ [] := by
      intro h0
      rw [h0] at hlen
      simp at hlen
      omega
    have hany : os.any (fun x => (n : Int) ≤ x) = false := by
      rw [List.any_eq_false]
      intro x hx
      simp only [decide_eq_true_eq]
      have := hbound x hx
      omega
    have he : ensure_order shuffle
        { index := (i : Int), order := os, last_posted_at := lp } n =
        { index := (i : Int), order := os, last_posted_at := lp } := by
      rw [ensure_order, if_neg]
      simp [hne, hany]
    have hnl : ¬ ((os.length : Int) ≤ ((i : Nat) : Int)) := by
      rw [hlen]
      omega
    have hso : selOrder shuffle
        { index := (i : Int), order := os, last_posted_at := lp } n = os := by
      rw [selOrder, he, if_neg hnl]
    have hsc : selCursor shuffle
        { index := (i : Int), order := os, last_posted_at := lp } n =
        (i : Int) := by
      rw [selCursor, he, if_neg hnl]
    have hiL : i < os.length := by omega
    have hpg : pyGet os ((i : Nat) : Int) = some (os.get ⟨i, hiL⟩) := by
      rw [pyGet, if_pos (Int.natCast_nonneg i)]
      rw [Int.toNat_natCast]
      rw [List.get?_eq_get hiL]
    have hcast : ((i : Nat) : Int) + 1 = (((i + 1 : Nat)) : Int) := by
      push_cast
      ring
    simp only [runSelections, selectStep, hso, hsc, hpg, he, hcast]
    rw [ih (i + 1) lp (by omega)]
    simp only [Option.map_some']
    congr 1
    conv_rhs => rw [← List.getElem_cons_drop os i hiL]
    rw [List.take_succ_cons, List.get_eq_getElem]

/-- Claim C1: for every item count n of at least 1, running the rotation
engine n times from the fresh default state (persisting the advanced
cursor each time) selects a sequence of idea indices that is a
permutation of range n — every index in [0, n) appears exactly once. -/
theorem rotation_cycle_covers_each_index_once (n : Nat)
    (shuffle : List Int → List Int) (hn : 1 ≤ n)
    (hshuffle : ∀ l, List.Perm (shuffle l) l) :
    ∃ sel, runSelections shuffle n n defaultState = some sel ∧
      List.Perm sel (intRange n) := by
  obtain ⟨m, rfl⟩ : ∃ m, n = m + 1 := ⟨n - 1, by omega⟩
  have hperm : List.Perm (shuffle (intRange (m + 1))) (intRange (m + 1)) :=
    hshuffle _
  set os := shuffle (intRange (m + 1)) with hos
  have hlen : os.length = m + 1 := by rw [hperm.length_eq, intRange_length]
  refine ⟨os, ?_, hperm⟩
  have he : ensure_order shuffle defaultState (m + 1) =
      { index := 0, order := os, last_posted_at := none } := by
    rw [ensure_order,
      if_pos (Or.inl (show defaultState.order = [] from rfl))]
    rfl
  have hnl : ¬ ((({ index := 0, order := os, last_posted_at := none } :
      RotationState).order.length : Int) ≤
      ({ index := 0, order := os, last_posted_at := none } :
        RotationState).index) := by
    simp only [hlen]
    omega
  have hso : selOrder shuffle defaultState (m + 1) = os := by
    rw [selOrder, he, if_neg hnl]
  have hsc : selCursor shuffle defaultState (m + 1) = 0 := by
    rw [selCursor, he, if_neg hnl]
  have h0L : 0 < os.length := by omega
  have hpg : pyGet os 0 = some (os.get ⟨0, h0L⟩) := by
    rw [pyGet, if_pos (by omega)]
    rw [show ((0 : Int)).toNat = 0 from rfl]
    rw [List.get?_eq_get h0L]
  simp only [runSelections, selectStep, hso, hsc, hpg, he]
  rw [show ((0 : Int) + 1) = (((1 : Nat)) : Int) by norm_num]
  rw [selections_from_valid_state shuffle (m + 1) os hperm m 1 none
    (by omega)]
  simp only [Option.map_some']
  congr 1
  have hdt : (os.drop 1).take m = os.drop 1 := by
    apply List.take_of_length_le
    rw [List.length_drop, hlen]
    omega
  rw [hdt]
  conv_rhs => rw [← List.drop_zero os, ← List.getElem_cons_drop os 0 h0L]
  simp [List.get_eq_getElem]

theorem rotation_cycle_covers_each_index_once_witness :
    ∃ sel, runSelections id 3 3 defaultState = some sel ∧
      List.Perm sel (intRange 3) :=
  rotation_cycle_covers_each_index_once 3 id (by decide)
    (fun l => List.Perm.refl l)
